import Mathlib

/-!
Verification of the Fruchterman-Reingold layout engine of
`src/GraphVisualizer.tsx`.

The TypeScript core is shallowly embedded:

* JavaScript numbers used for coordinates, forces and the temperature are
  modelled as real numbers (`ℝ`); `Math.sqrt` becomes `Real.sqrt`.
* Vertex ids and array indices are natural numbers.
* `Math.random()`-driven choices are modelled by explicit streams: `pos`
  feeds the vertex positions and `rng` feeds the sampled endpoint pairs of
  the edge-rejection loop (the inner `while (b === a)` retry loop is
  absorbed into the stream, constrained by `validRng`).
* The unbounded `while (edges.length < numEdges)` loop is instrumented with
  explicit fuel and returns `Option`: `none` means the loop had not
  terminated after `fuel` iterations.
* In-place mutation of the vertex array is explicit state passing over
  `List Vertex`.
-/

set_option autoImplicit false

namespace GraphVisualizer

/-- A vertex of `GraphVisualizer.tsx`: identity `id`, position `(x, y)` and
per-step force accumulator `(dx, dy)`. -/
structure Vertex where
  id : ℕ
  x : ℝ
  y : ℝ
  dx : ℝ
  dy : ℝ

/-- An edge: the pair of endpoint vertex ids. -/
structure Edge where
  source : ℕ
  target : ℕ
  deriving DecidableEq

instance : Inhabited Vertex := ⟨⟨0, 0, 0, 0, 0⟩⟩

/-! ## Graph generation (`generateRandomGraph`) -/

/-- The canonical key of an unordered endpoint pair, mirroring
`const key = a < b ? a,b : b,a` in `generateRandomGraph`. -/
def canonKey (a b : ℕ) : ℕ × ℕ :=
  if a < b then (a, b) else (b, a)

/-- The canonical key of an edge's unordered endpoint pair. -/
def edgeKey (e : Edge) : ℕ × ℕ :=
  canonKey e.source e.target

/-- The vertex-placement loop of `generateRandomGraph`: vertex `i` gets id
`i`, the `i`-th random position of the stream `pos`, and zero accumulators. -/
def genVertices (numVertices : ℕ) (pos : ℕ → ℝ × ℝ) : List Vertex :=
  (List.range numVertices).map fun i =>
    { id := i, x := (pos i).1, y := (pos i).2, dx := 0, dy := 0 }

/-- The edge-sampling loop of `generateRandomGraph`, instrumented with fuel.
`rng t` is the endpoint pair `(a, b)` sampled in outer iteration `t` (after
the inner `while (b === a)` rejection loop). `keys` mirrors `edgeSet` and
`edges` the accumulated edge list. `none` means the loop was still running
when the fuel ran out. -/
def genEdgesLoop (numEdges : ℕ) (rng : ℕ → ℕ × ℕ) :
    ℕ → ℕ → List (ℕ × ℕ) → List Edge → Option (List Edge)
  | 0, _, _, edges => if numEdges ≤ edges.length then some edges else none
  | fuel + 1, t, keys, edges =>
    if numEdges ≤ edges.length then some edges
    else
      let a := (rng t).1
      let b := (rng t).2
      let key := canonKey a b
      if key ∈ keys then genEdgesLoop numEdges rng fuel (t + 1) keys edges
      else genEdgesLoop numEdges rng fuel (t + 1) (keys ++ [key])
        (edges ++ [{ source := a, target := b }])

/-- `generateRandomGraph(numVertices, numEdges)`: random vertices plus the
sampled edge list; `none` when the sampling loop fails to terminate within
`fuel` iterations. -/
def generateRandomGraph (numVertices numEdges : ℕ) (pos : ℕ → ℝ × ℝ)
    (rng : ℕ → ℕ × ℕ) (fuel : ℕ) : Option (List Vertex × List Edge) :=
  match genEdgesLoop numEdges rng fuel 0 [] [] with
  | some edges => some (genVertices numVertices pos, edges)
  | none => none

/-- The sampling stream is faithful to the JavaScript loop for `n` vertices:
each sampled pair consists of two distinct indices below `n` (exactly the
post-state of `Math.floor(Math.random() * n)` plus the `while (b === a)`
rejection loop). -/
def validRng (n : ℕ) (rng : ℕ → ℕ × ℕ) : Prop :=
  ∀ t, (rng t).1 < n ∧ (rng t).2 < n ∧ (rng t).1 ≠ (rng t).2

/-! ## Layout step (`fruchtermanReingoldStep`) -/

/-- Option-valued list indexing, mirroring `vertices[i]` (out of bounds is a
failure in the model, matching the `undefined` access in JavaScript). -/
def nthV : List Vertex → ℕ → Option Vertex
  | [], _ => none
  | v :: _, 0 => some v
  | _ :: rest, n + 1 => nthV rest n

/-- In-place update of the `i`-th vertex, mirroring mutation of
`vertices[i]`. Out of bounds leaves the list unchanged (never reached under
the in-bounds hypotheses used below). -/
def modifyIdx (f : Vertex → Vertex) : List Vertex → ℕ → List Vertex
  | [], _ => []
  | v :: rest, 0 => f v :: rest
  | v :: rest, n + 1 => v :: modifyIdx f rest n

/-- The repulsion pass for one vertex `v`: `v.dx`/`v.dy` are reset to zero
and then accumulate `(k²/dist)·(d/dist)` over every other vertex `u` of the
array, exactly as the inner loop of the first phase. -/
noncomputable def repulse (k : ℝ) (vs : List Vertex) (v : Vertex) : Vertex :=
  let acc := vs.foldl
    (fun (acc : ℝ × ℝ) u =>
      if u.id ≠ v.id then
        let dx := v.x - u.x
        let dy := v.y - u.y
        let dist := Real.sqrt (dx * dx + dy * dy) + 0.01
        let force := k * k / dist
        (acc.1 + dx / dist * force, acc.2 + dy / dist * force)
      else acc)
    (0, 0)
  { v with dx := acc.1, dy := acc.2 }

/-- Phase 1 of `fruchtermanReingoldStep`. The inner loop reads only the
`id`/`x`/`y` fields, none of which phase 1 writes, so the in-place JavaScript
loop is equivalent to this map. -/
noncomputable def repulsionPhase (k : ℝ) (vs : List Vertex) : List Vertex :=
  vs.map (repulse k vs)

/-- One iteration of the attraction loop for edge `e`: read
`vertices[e.source]` and `vertices[e.target]`, compute the spring force
`(dist²/k)·(d/dist)`, subtract it from the source accumulator and add it to
the target accumulator. `none` models an out-of-bounds endpoint. -/
noncomputable def attractEdge (k : ℝ) (vs : List Vertex) (e : Edge) : Option (List Vertex) :=
  match nthV vs e.source, nthV vs e.target with
  | some v, some u =>
    let dx := v.x - u.x
    let dy := v.y - u.y
    let dist := Real.sqrt (dx * dx + dy * dy) + 0.01
    let force := dist * dist / k
    let fx := dx / dist * force
    let fy := dy / dist * force
    let vs1 := modifyIdx (fun w => { w with dx := w.dx - fx, dy := w.dy - fy }) vs e.source
    some (modifyIdx (fun w => { w with dx := w.dx + fx, dy := w.dy + fy }) vs1 e.target)
  | _, _ => none

/-- Phase 2 of `fruchtermanReingoldStep`: the attraction loop over the edge
list, threading the mutated vertex array. -/
noncomputable def attractionPhase (k : ℝ) (vs : List Vertex) : List Edge → Option (List Vertex)
  | [] => some vs
  | e :: rest =>
    match attractEdge k vs e with
    | some vs1 => attractionPhase k vs1 rest
    | none => none

/-- The magnitude `Math.sqrt(dx*dx + dy*dy)` of a force vector. -/
noncomputable def dispOf (dx dy : ℝ) : ℝ :=
  Real.sqrt (dx * dx + dy * dy)

/-- The displacement-capping rule of phase 3: a vector whose magnitude
exceeds `temperature` is rescaled to `(dx/disp)·T, (dy/disp)·T`; otherwise it
is applied unchanged. -/
noncomputable def capDisp (temperature dx dy : ℝ) : ℝ × ℝ :=
  let disp := dispOf dx dy
  if disp > temperature then (dx / disp * temperature, dy / disp * temperature)
  else (dx, dy)

/-- Phases 3-5 of `fruchtermanReingoldStep`: per vertex, cap the
displacement at `temperature`, add it to the position, clamp the position
into `[0, width] × [0, height]`, and fold the running `maxMove` maximum of
the pre-cap magnitudes. Returns the updated list and the final `maxMove`. -/
noncomputable def movePhase (width height temperature : ℝ) :
    List Vertex → ℝ → List Vertex × ℝ
  | [], maxMove => ([], maxMove)
  | v :: rest, maxMove =>
    let disp := dispOf v.dx v.dy
    let d := capDisp temperature v.dx v.dy
    let x := min width (max 0 (v.x + d.1))
    let y := min height (max 0 (v.y + d.2))
    let newMax := if disp > maxMove then disp else maxMove
    let r := movePhase width height temperature rest newMax
    ({ v with x := x, y := y } :: r.1, r.2)

/-- `fruchtermanReingoldStep(vertices, edges, width, height, k, temperature)`:
repulsion, attraction, then capped-and-clamped position update; returns the
updated vertex list and the `maxMove` value the function returns. `none`
models an out-of-bounds edge endpoint in the attraction loop. -/
noncomputable def fruchtermanReingoldStep (vertices : List Vertex) (edges : List Edge)
    (width height k temperature : ℝ) : Option (List Vertex × ℝ) :=
  let vs1 := repulsionPhase k vertices
  match attractionPhase k vs1 edges with
  | some vs2 => some (movePhase width height temperature vs2 0)
  | none => none

/-! ## Cooling schedule -/

/-- The cooling transition `T ← T * 0.95` of the driver. -/
noncomputable def coolDown (t : ℝ) : ℝ :=
  t * 0.95

/-- The temperature after `n` steps of the driver, starting from the initial
value 100. -/
noncomputable def tempAfter : ℕ → ℝ
  | 0 => 100
  | n + 1 => coolDown (tempAfter n)

/-- An edge is valid for `n` vertices: both endpoints are indices below `n`
and they are distinct. -/
def validEdge (n : ℕ) (e : Edge) : Prop :=
  e.source < n ∧ e.target < n ∧ e.source ≠ e.target

/-- Total variant of `nthV`, defaulting out-of-bounds reads to the zero
vertex; used only to state theorems about in-bounds positions. -/
def getDV (vs : List Vertex) (i : ℕ) : Vertex :=
  (nthV vs i).getD default

/-- The persistent part of a vertex: identity and position. The `dx`/`dy`
scratch fields are excluded. -/
def proj (v : Vertex) : ℕ × ℝ × ℝ :=
  (v.id, v.x, v.y)

/-! ## Concrete scenarios -/

/-- The spec's concrete scenario: two vertices at `(0, 0)` and `(100, 0)`. -/
noncomputable def scenarioTwoVertices : List Vertex :=
  [{ id := 0, x := 0, y := 0, dx := 0, dy := 0 },
   { id := 1, x := 100, y := 0, dx := 0, dy := 0 }]

/-- The single edge joining the two scenario vertices. -/
def scenarioEdge : List Edge :=
  [{ source := 0, target := 1 }]

/-- The repulsion magnitude `k²/dist²·|d|` each scenario vertex receives at
distance 100 with `k = 50`: `(100/100.01)·(2500/100.01)`. -/
noncomputable def scenarioRep : ℝ :=
  2500000000 / 100020001

/-- The magnitude of the net force on each scenario vertex once the spring
force `200.02` toward the other endpoint is added: about `175.025`. -/
noncomputable def scenarioNet : ℝ :=
  10001 / 50 - 2500000000 / 100020001

/-- Result of one step on the spec scenario (`k = 50`, `T = 100`, canvas
`800 × 600`). -/
noncomputable def c4run : List Vertex × ℝ :=
  (fruchtermanReingoldStep scenarioTwoVertices scenarioEdge 800 600 50 100).getD ([], 0)

/-- The separation of the two scenario vertices after that step. -/
noncomputable def c4sep : ℝ :=
  dispOf ((getDV c4run.1 0).x - (getDV c4run.1 1).x)
    ((getDV c4run.1 0).y - (getDV c4run.1 1).y)

/-- Result of one step on the two scenario vertices with no edges and the
small temperature `T = 10`: pure repulsion, each force ≈ 24.995 above `T`. -/
noncomputable def c6run : List Vertex × ℝ :=
  (fruchtermanReingoldStep scenarioTwoVertices [] 800 600 50 10).getD ([], 0)

/-! ## Proofs -/

/-- With two vertices, every valid sample canonicalizes to the single
possible pair `(0, 1)`. -/
lemma canonKey_of_two {a b : ℕ} (ha : a < 2) (hb : b < 2) (hab : a ≠ b) :
    canonKey a b = (0, 1) := by
  interval_cases a <;> interval_cases b <;> simp_all [canonKey]

/-- Invariant-carrying form of the infeasibility argument for two vertices:
if every key already collected is `(0, 1)`, the keys are distinct, and the
edge count matches the key count, then the loop requesting two edges can
never return a graph. -/
lemma genEdgesLoop_two_two_none (rng : ℕ → ℕ × ℕ) (hrng : validRng 2 rng) :
    ∀ (fuel t : ℕ) (keys : List (ℕ × ℕ)) (edges : List Edge),
      (∀ x ∈ keys, x = (0, 1)) → keys.Nodup → edges.length = keys.length →
      genEdgesLoop 2 rng fuel t keys edges = none := by
  intro fuel
  induction fuel with
  | zero =>
    intro t keys edges hall hnd hlen
    have hk : keys.length ≤ 1 := by
      rcases keys with _ | ⟨k, keys⟩
      · simp
      · rcases keys with _ | ⟨k2, keys⟩
        · simp
        · exfalso
          have h1 : k = (0, 1) := hall k (by simp)
          have h2 : k2 = (0, 1) := hall k2 (by simp)
          simp [h1, h2, List.nodup_cons] at hnd
    have : ¬ 2 ≤ edges.length := by omega
    simp [genEdgesLoop, this]
  | succ fuel ih =>
    intro t keys edges hall hnd hlen
    have hk : keys.length ≤ 1 := by
      rcases keys with _ | ⟨k, keys⟩
      · simp
      · rcases keys with _ | ⟨k2, keys⟩
        · simp
        · exfalso
          have h1 : k = (0, 1) := hall k (by simp)
          have h2 : k2 = (0, 1) := hall k2 (by simp)
          simp [h1, h2, List.nodup_cons] at hnd
    have hlt : ¬ 2 ≤ edges.length := by omega
    obtain ⟨ha, hb, hab⟩ := hrng t
    have hkey : canonKey (rng t).1 (rng t).2 = (0, 1) := canonKey_of_two ha hb hab
    by_cases hmem : canonKey (rng t).1 (rng t).2 ∈ keys
    · simp only [genEdgesLoop, if_neg hlt, hmem, if_pos]
      exact ih (t + 1) keys edges hall hnd hlen
    · simp only [genEdgesLoop, if_neg hlt, hmem, if_neg]
      refine ih (t + 1) (keys ++ [canonKey (rng t).1 (rng t).2]) _ ?_ ?_ ?_
      · intro x hx
        rcases List.mem_append.1 hx with hx | hx
        · exact hall x hx
        · simpa [hkey] using hx
      · simpa [List.nodup_append, hkey] using ⟨hnd, fun hx => hmem (by simpa [hkey] using hx)⟩
      · simp [hlen]

/-- Loop invariant of the edge-sampling loop: the collected keys are exactly
the canonical keys of the collected edges, they are pairwise distinct, and
every collected edge is valid; any successful run therefore returns a list
of valid edges with pairwise-distinct unordered endpoint pairs. -/
lemma genEdgesLoop_valid (n numEdges : ℕ) (rng : ℕ → ℕ × ℕ)
    (hrng : validRng n rng) :
    ∀ (fuel t : ℕ) (keys : List (ℕ × ℕ)) (edges : List Edge),
      edges.map edgeKey = keys → keys.Nodup → (∀ e ∈ edges, validEdge n e) →
      ∀ out, genEdgesLoop numEdges rng fuel t keys edges = some out →
        (out.map edgeKey).Nodup ∧ ∀ e ∈ out, validEdge n e := by
  intro fuel
  induction fuel with
  | zero =>
    intro t keys edges hmap hnd hval out hout
    by_cases hle : numEdges ≤ edges.length
    · simp only [genEdgesLoop, if_pos hle, Option.some.injEq] at hout
      subst hout
      exact ⟨hmap ▸ hnd, hval⟩
    · simp [genEdgesLoop, if_neg hle] at hout
  | succ fuel ih =>
    intro t keys edges hmap hnd hval out hout
    by_cases hle : numEdges ≤ edges.length
    · simp only [genEdgesLoop, if_pos hle, Option.some.injEq] at hout
      subst hout
      exact ⟨hmap ▸ hnd, hval⟩
    · obtain ⟨ha, hb, hab⟩ := hrng t
      by_cases hmem : canonKey (rng t).1 (rng t).2 ∈ keys
      · simp only [genEdgesLoop, if_neg hle, hmem, if_pos] at hout
        exact ih (t + 1) keys edges hmap hnd hval out hout
      · simp only [genEdgesLoop, if_neg hle, hmem, if_neg] at hout
        refine ih (t + 1) _ _ ?_ ?_ ?_ out hout
        · simp [hmap, edgeKey]
        · simpa [List.nodup_append] using ⟨hnd, hmem⟩
        · intro e he
          rcases List.mem_append.1 he with he | he
          · exact hval e he
          · rcases List.mem_singleton.1 he with rfl
            exact ⟨ha, hb, hab⟩

/-- C1: `generate` is claimed to signal `InvalidParameter` before entering
the edge-sampling loop for an infeasible request. The code has no such
check: at the failing input `numVertices = 2`, `numEdges = 2` (two edges
requested where only one distinct non-self-loop pair exists) the sampling
loop never produces a graph — for every fuel bound and every valid random
stream the instrumented loop is still running, so the function neither
signals an error nor returns a graph. -/
theorem c1_infeasible_generate_never_returns (pos : ℕ → ℝ × ℝ)
    (rng : ℕ → ℕ × ℕ) (hrng : validRng 2 rng) (fuel : ℕ) :
    generateRandomGraph 2 2 pos rng fuel = none := by
  unfold generateRandomGraph
  rw [genEdgesLoop_two_two_none rng hrng fuel 0 [] [] (by simp) (by simp) (by simp)]

/-- Witness for C1 at a concrete stream and fuel bound. -/
theorem c1_infeasible_generate_never_returns_witness :
    generateRandomGraph 2 2 (fun _ => (0, 0)) (fun _ => (0, 1)) 1000 = none :=
  c1_infeasible_generate_never_returns (fun _ => (0, 0)) (fun _ => (0, 1))
    (fun _ => ⟨(by decide : (0 : ℕ) < 2), (by decide : (1 : ℕ) < 2),
      (by decide : (0 : ℕ) ≠ 1)⟩) 1000

/-- C3: every graph returned by `generateRandomGraph` has vertex ids exactly
`0 .. numVertices - 1`, every edge's endpoints are distinct indices below
`numVertices`, and no two edges denote the same unordered pair. -/
theorem c3_generated_graph_valid (numVertices numEdges : ℕ)
    (pos : ℕ → ℝ × ℝ) (rng : ℕ → ℕ × ℕ) (fuel : ℕ)
    (vs : List Vertex) (es : List Edge) (hrng : validRng numVertices rng)
    (hgen : generateRandomGraph numVertices numEdges pos rng fuel = some (vs, es)) :
    vs.map Vertex.id = List.range numVertices ∧
    (∀ e ∈ es, e.source ≠ e.target ∧ e.source < numVertices ∧ e.target < numVertices) ∧
    (es.map edgeKey).Nodup := by
  unfold generateRandomGraph at hgen
  rcases hloop : genEdgesLoop numEdges rng fuel 0 [] [] with _ | out
  · rw [hloop] at hgen
    exact absurd hgen (by simp)
  · rw [hloop] at hgen
    simp only [Option.some.injEq, Prod.mk.injEq] at hgen
    obtain ⟨hvs, hes⟩ := hgen
    subst hvs
    subst hes
    have hinv := genEdgesLoop_valid numVertices numEdges rng hrng fuel 0 [] []
      (by simp) (by simp) (by simp) out hloop
    refine ⟨?_, ?_, hinv.1⟩
    · unfold genVertices
      rw [List.map_map]
      exact List.map_id _
    · intro e he
      obtain ⟨h1, h2, h3⟩ := hinv.2 e he
      exact ⟨h3, h1, h2⟩

/-- Witness for C3: a concrete successful generation with two vertices and
one edge. -/
theorem c3_generated_graph_valid_witness :
    [⟨0, 0, 0, 0, 0⟩, ⟨1, 0, 0, 0, 0⟩].map Vertex.id = List.range 2 ∧
    (∀ e ∈ [({ source := 0, target := 1 } : Edge)],
      e.source ≠ e.target ∧ e.source < 2 ∧ e.target < 2) ∧
    (([({ source := 0, target := 1 } : Edge)]).map edgeKey).Nodup :=
  c3_generated_graph_valid 2 1 (fun _ => (0, 0)) (fun _ => (0, 1)) 1
    [⟨0, 0, 0, 0, 0⟩, ⟨1, 0, 0, 0, 0⟩] [{ source := 0, target := 1 }]
    (fun _ => ⟨(by decide : (0 : ℕ) < 2), (by decide : (1 : ℕ) < 2),
      (by decide : (0 : ℕ) ≠ 1)⟩) rfl

/-! ## Cooling schedule -/

/-- Closed form of the temperature sequence. -/
lemma tempAfter_eq (n : ℕ) : tempAfter n = 100 * 0.95 ^ n := by
  induction n with
  | zero => simp [tempAfter]
  | succ n ih =>
    rw [tempAfter, coolDown, ih, pow_succ]
    ring

/-- C8: the cooling rule `T ← T * 0.95` strictly decreases any positive
temperature, and starting from `T₀ = 100` the temperature is below the
floor `1` after 90 applications, independent of graph content. -/
theorem c8_cooling_strictly_decreasing_and_bounded :
    (∀ t : ℝ, 0 < t → coolDown t < t) ∧ tempAfter 90 < 1 := by
  constructor
  · intro t ht
    rw [coolDown]
    nlinarith
  · rw [tempAfter_eq]
    norm_num

/-- Witness for C8 at the initial temperature 100. -/
theorem c8_cooling_strictly_decreasing_and_bounded_witness :
    coolDown 100 < 100 ∧ tempAfter 90 < 1 :=
  ⟨c8_cooling_strictly_decreasing_and_bounded.1 100 (by norm_num),
    c8_cooling_strictly_decreasing_and_bounded.2⟩

/-! ## Index and fold helpers -/

lemma modifyIdx_length (f : Vertex → Vertex) :
    ∀ (vs : List Vertex) (i : ℕ), (modifyIdx f vs i).length = vs.length := by
  intro vs
  induction vs with
  | nil => intro i; rfl
  | cons v rest ih =>
    intro i
    cases i with
    | zero => rfl
    | succ n => simp [modifyIdx, ih]

lemma nthV_modifyIdx_self (f : Vertex → Vertex) :
    ∀ (vs : List Vertex) (i : ℕ),
      nthV (modifyIdx f vs i) i = (nthV vs i).map f := by
  intro vs
  induction vs with
  | nil => intro i; rfl
  | cons v rest ih =>
    intro i
    cases i with
    | zero => rfl
    | succ n => simpa [modifyIdx, nthV] using ih n

lemma nthV_modifyIdx_ne (f : Vertex → Vertex) :
    ∀ (vs : List Vertex) (i j : ℕ), i ≠ j →
      nthV (modifyIdx f vs i) j = nthV vs j := by
  intro vs
  induction vs with
  | nil => intro i j _; rfl
  | cons v rest ih =>
    intro i j hne
    cases i with
    | zero =>
      cases j with
      | zero => exact absurd rfl hne
      | succ m => rfl
    | succ n =>
      cases j with
      | zero => rfl
      | succ m =>
        simpa [modifyIdx, nthV] using ih n m (fun h => hne (by rw [h]))

lemma nthV_isSome : ∀ (vs : List Vertex) (i : ℕ), i < vs.length →
    ∃ v, nthV vs i = some v := by
  intro vs
  induction vs with
  | nil => intro i h; simp at h
  | cons v rest ih =>
    intro i h
    cases i with
    | zero => exact ⟨v, rfl⟩
    | succ n => exact ih n (by simpa using h)

/-- Folding a function that reads its list elements only through `f` gives
the same result on two lists with equal images under `f`. -/
lemma foldl_of_map_eq {α β γ : Type} (f : α → β) (F : γ → β → γ) :
    ∀ (l1 l2 : List α), l1.map f = l2.map f → ∀ acc : γ,
      l1.foldl (fun a v => F a (f v)) acc = l2.foldl (fun a v => F a (f v)) acc := by
  intro l1
  induction l1 with
  | nil =>
    intro l2 h acc
    cases l2 with
    | nil => rfl
    | cons b r2 => simp at h
  | cons a r ih =>
    intro l2 h acc
    cases l2 with
    | nil => simp at h
    | cons b r2 =>
      simp only [List.map_cons, List.cons.injEq] at h
      simp only [List.foldl_cons]
      rw [h.1]
      exact ih r2 h.2 (F acc (f b))

/-! ## Move-phase structure -/

/-- The `maxMove` accumulator of the position-update loop is the running
maximum of the pre-cap magnitudes `dispOf v.dx v.dy`. -/
lemma movePhase_snd (width height temperature : ℝ) :
    ∀ (l : List Vertex) (m0 : ℝ),
      (movePhase width height temperature l m0).2 =
        l.foldl (fun acc v => max acc (dispOf v.dx v.dy)) m0 := by
  intro l
  induction l with
  | nil => intro m0; rfl
  | cons v rest ih =>
    intro m0
    simp only [movePhase, List.foldl_cons]
    rw [ih]
    congr 1
    by_cases h : dispOf v.dx v.dy > m0
    · rw [if_pos h, max_eq_right h.le]
    · rw [if_neg h, max_eq_left (le_of_not_lt h)]

/-- The position-update loop does not touch the `dx`/`dy` accumulators. -/
lemma movePhase_fst_dxdy (width height temperature : ℝ) :
    ∀ (l : List Vertex) (m0 : ℝ),
      (movePhase width height temperature l m0).1.map (fun v => (v.dx, v.dy)) =
        l.map (fun v => (v.dx, v.dy)) := by
  intro l
  induction l with
  | nil => intro m0; rfl
  | cons v rest ih =>
    intro m0
    simp only [movePhase, List.map_cons, List.cons.injEq]
    exact ⟨trivial, ih _⟩

/-- Every vertex produced by the position-update loop has both coordinates
clamped into the canvas rectangle. -/
lemma movePhase_fst_bounds (width height temperature : ℝ)
    (hw : 0 ≤ width) (hh : 0 ≤ height) :
    ∀ (l : List Vertex) (m0 : ℝ),
      ∀ v ∈ (movePhase width height temperature l m0).1,
        0 ≤ v.x ∧ v.x ≤ width ∧ 0 ≤ v.y ∧ v.y ≤ height := by
  intro l
  induction l with
  | nil => intro m0 v hv; simp [movePhase] at hv
  | cons a rest ih =>
    intro m0 v hv
    simp only [movePhase, List.mem_cons] at hv
    rcases hv with rfl | hv
    · exact ⟨le_min hw (le_max_left 0 _), min_le_left _ _,
        le_min hh (le_max_left 0 _), min_le_left _ _⟩
    · exact ih _ v hv

/-- C2: after any `step` on a positive canvas, every returned vertex
position lies within `[0, width] × [0, height]`. -/
theorem c2_positions_bounded (vs : List Vertex) (es : List Edge)
    (width height k temperature : ℝ) (vs2 : List Vertex) (m : ℝ)
    (hw : 0 < width) (hh : 0 < height)
    (hstep : fruchtermanReingoldStep vs es width height k temperature = some (vs2, m)) :
    ∀ v ∈ vs2, 0 ≤ v.x ∧ v.x ≤ width ∧ 0 ≤ v.y ∧ v.y ≤ height := by
  simp only [fruchtermanReingoldStep] at hstep
  rcases hatt : attractionPhase k (repulsionPhase k vs) es with _ | vsMid
  · rw [hatt] at hstep
    exact absurd hstep (by simp)
  · rw [hatt] at hstep
    simp only [Option.some.injEq] at hstep
    have hfst : vs2 = (movePhase width height temperature vsMid 0).1 := by
      rw [hstep]
    rw [hfst]
    exact movePhase_fst_bounds width height temperature hw.le hh.le vsMid 0

/-- A full step on an isolated vertex: no forces accumulate, the position
is clamped in place, and the returned `maxMove` is zero. -/
lemma singleton_step_eval :
    fruchtermanReingoldStep [{ id := 0, x := 5, y := 5, dx := 0, dy := 0 }]
        [] 800 600 50 100 =
      some ([{ id := 0, x := 5, y := 5, dx := 0, dy := 0 }], 0) := by
  unfold fruchtermanReingoldStep repulsionPhase repulse
  simp only [List.map, List.foldl, attractionPhase]
  simp only [movePhase, capDisp, dispOf]
  norm_num [Real.sqrt_zero, min_def, max_def]

/-- Witness for C2 on a concrete one-vertex graph. -/
theorem c2_positions_bounded_witness :
    0 ≤ ({ id := 0, x := 5, y := 5, dx := 0, dy := 0 } : Vertex).x ∧
    ({ id := 0, x := 5, y := 5, dx := 0, dy := 0 } : Vertex).x ≤ (800:ℝ) ∧
    0 ≤ ({ id := 0, x := 5, y := 5, dx := 0, dy := 0 } : Vertex).y ∧
    ({ id := 0, x := 5, y := 5, dx := 0, dy := 0 } : Vertex).y ≤ (600:ℝ) :=
  c2_positions_bounded [{ id := 0, x := 5, y := 5, dx := 0, dy := 0 }] []
    800 600 50 100 [{ id := 0, x := 5, y := 5, dx := 0, dy := 0 }] 0
    (by norm_num) (by norm_num) singleton_step_eval
    { id := 0, x := 5, y := 5, dx := 0, dy := 0 } (List.mem_singleton.mpr rfl)

/-! ## Displacement capping -/

/-- Scaling a force vector by a nonnegative factor scales its magnitude. -/
lemma dispOf_smul (dx dy c : ℝ) (hc : 0 ≤ c) :
    dispOf (dx * c) (dy * c) = dispOf dx dy * c := by
  unfold dispOf
  rw [show dx * c * (dx * c) + dy * c * (dy * c) =
      (dx * dx + dy * dy) * c ^ 2 by ring,
    Real.sqrt_mul (add_nonneg (mul_self_nonneg dx) (mul_self_nonneg dy)),
    Real.sqrt_sq hc]

/-- C5: with a nonnegative temperature, the capped displacement never has
magnitude above `temperature`; and whenever the accumulated force magnitude
exceeds `temperature`, the applied displacement is the force vector scaled
by the nonnegative factor `temperature / disp` — direction preserved — with
magnitude exactly `temperature`. -/
theorem c5_cap_limits_displacement (temperature dx dy : ℝ)
    (hT : 0 ≤ temperature) :
    dispOf (capDisp temperature dx dy).1 (capDisp temperature dx dy).2 ≤ temperature ∧
    (temperature < dispOf dx dy →
      capDisp temperature dx dy =
        (dx / dispOf dx dy * temperature, dy / dispOf dx dy * temperature) ∧
      dispOf (capDisp temperature dx dy).1 (capDisp temperature dx dy).2 = temperature) := by
  have hnn : (0:ℝ) ≤ dx * dx + dy * dy :=
    add_nonneg (mul_self_nonneg dx) (mul_self_nonneg dy)
  by_cases h : dispOf dx dy > temperature
  · have hdpos : 0 < dispOf dx dy := lt_of_le_of_lt hT h
    have hcap : capDisp temperature dx dy =
        (dx / dispOf dx dy * temperature, dy / dispOf dx dy * temperature) := by
      unfold capDisp
      rw [if_pos h]
    have hne : dispOf dx dy ≠ 0 := ne_of_gt hdpos
    have hmag : dispOf (dx / dispOf dx dy * temperature)
        (dy / dispOf dx dy * temperature) = temperature := by
      rw [show dx / dispOf dx dy * temperature =
            dx * (temperature / dispOf dx dy) by ring,
        show dy / dispOf dx dy * temperature =
            dy * (temperature / dispOf dx dy) by ring,
        dispOf_smul _ _ _ (div_nonneg hT hdpos.le)]
      field_simp
    refine ⟨?_, fun _ => ⟨hcap, ?_⟩⟩
    · rw [hcap]
      exact le_of_eq hmag
    · rw [hcap]
      exact hmag
  · have hcap : capDisp temperature dx dy = (dx, dy) := by
      unfold capDisp
      rw [if_neg h]
    refine ⟨?_, fun hcon => absurd hcon h⟩
    rw [hcap]
    exact le_of_not_lt h

/-- Witness for C5 at `T = 100` and the force vector `(300, 400)` of
magnitude 500. -/
theorem c5_cap_limits_displacement_witness :
    dispOf (capDisp 100 300 400).1 (capDisp 100 300 400).2 ≤ 100 ∧
    (100 < dispOf 300 400 →
      capDisp 100 300 400 = (300 / dispOf 300 400 * 100, 400 / dispOf 300 400 * 100) ∧
      dispOf (capDisp 100 300 400).1 (capDisp 100 300 400).2 = 100) :=
  c5_cap_limits_displacement 100 300 400 (by norm_num)

/-! ## Symmetry of attraction -/

/-- C7: for an in-bounds edge with distinct endpoints, the attraction pass
succeeds and the change it makes to the target's accumulator is the exact
negation of the change it makes to the source's accumulator (Newton's third
law before any capping). -/
theorem c7_attraction_antisymmetric (k : ℝ) (vs : List Vertex) (e : Edge)
    (hs : e.source < vs.length) (ht : e.target < vs.length)
    (hne : e.source ≠ e.target) :
    ∃ vs2, attractEdge k vs e = some vs2 ∧
      (getDV vs2 e.target).dx - (getDV vs e.target).dx =
        -((getDV vs2 e.source).dx - (getDV vs e.source).dx) ∧
      (getDV vs2 e.target).dy - (getDV vs e.target).dy =
        -((getDV vs2 e.source).dy - (getDV vs e.source).dy) := by
  obtain ⟨v, hv⟩ := nthV_isSome vs e.source hs
  obtain ⟨u, hu⟩ := nthV_isSome vs e.target ht
  rcases hres : attractEdge k vs e with _ | vs2
  · exfalso
    unfold attractEdge at hres
    rw [hv, hu] at hres
    simp at hres
  · refine ⟨vs2, rfl, ?_⟩
    unfold attractEdge at hres
    rw [hv, hu] at hres
    simp only [Option.some.injEq] at hres
    subst hres
    unfold getDV
    rw [nthV_modifyIdx_self, nthV_modifyIdx_ne _ _ _ _ hne,
      nthV_modifyIdx_ne _ _ _ _ (fun h => hne h.symm), nthV_modifyIdx_self,
      hv, hu]
    simp only [Option.map_some', Option.getD_some]
    constructor <;> ring

/-- Witness for C7 on the concrete scenario edge. -/
theorem c7_attraction_antisymmetric_witness :
    ∃ vs2, attractEdge 50 scenarioTwoVertices { source := 0, target := 1 } = some vs2 ∧
      (getDV vs2 1).dx - (getDV scenarioTwoVertices 1).dx =
        -((getDV vs2 0).dx - (getDV scenarioTwoVertices 0).dx) ∧
      (getDV vs2 1).dy - (getDV scenarioTwoVertices 1).dy =
        -((getDV vs2 0).dy - (getDV scenarioTwoVertices 0).dy) :=
  c7_attraction_antisymmetric 50 scenarioTwoVertices { source := 0, target := 1 }
    (by simp [scenarioTwoVertices]) (by simp [scenarioTwoVertices]) (by simp)

/-! ## Noninterference of the scratch accumulators -/

/-- The repulsion pass reads only the persistent projection of the vertices
(`id`, `x`, `y`) and overwrites the scratch fields, so two vertices and
environments agreeing on projections produce equal results. -/
lemma repulse_proj_eq (k : ℝ) (vs1 vs2 : List Vertex)
    (hvs : vs1.map proj = vs2.map proj) (v1 v2 : Vertex)
    (hv : proj v1 = proj v2) : repulse k vs1 v1 = repulse k vs2 v2 := by
  obtain ⟨hid, hx, hy⟩ : v1.id = v2.id ∧ v1.x = v2.x ∧ v1.y = v2.y := by
    unfold proj at hv
    simpa [Prod.ext_iff] using hv
  unfold repulse
  simp only [hid, hx, hy]
  rw [show vs1.foldl
      (fun (acc : ℝ × ℝ) u =>
        if u.id ≠ v2.id then
          let dx := v2.x - u.x
          let dy := v2.y - u.y
          let dist := Real.sqrt (dx * dx + dy * dy) + 0.01
          let force := k * k / dist
          (acc.1 + dx / dist * force, acc.2 + dy / dist * force)
        else acc) (0, 0) = vs2.foldl
      (fun (acc : ℝ × ℝ) u =>
        if u.id ≠ v2.id then
          let dx := v2.x - u.x
          let dy := v2.y - u.y
          let dist := Real.sqrt (dx * dx + dy * dy) + 0.01
          let force := k * k / dist
          (acc.1 + dx / dist * force, acc.2 + dy / dist * force)
        else acc) (0, 0) from
    foldl_of_map_eq proj
      (fun (acc : ℝ × ℝ) (p : ℕ × ℝ × ℝ) =>
        if p.1 ≠ v2.id then
          let dx := v2.x - p.2.1
          let dy := v2.y - p.2.2
          let dist := Real.sqrt (dx * dx + dy * dy) + 0.01
          let force := k * k / dist
          (acc.1 + dx / dist * force, acc.2 + dy / dist * force)
        else acc) vs1 vs2 hvs (0, 0)]

/-- Two vertex arrays with the same projections produce, field for field,
the same repulsion-phase output. -/
lemma repulsionPhase_proj_eq (k : ℝ) (vs1 vs2 : List Vertex)
    (hvs : vs1.map proj = vs2.map proj) :
    repulsionPhase k vs1 = repulsionPhase k vs2 := by
  unfold repulsionPhase
  have key : ∀ (l1 l2 : List Vertex), l1.map proj = l2.map proj →
      l1.map (repulse k vs1) = l2.map (repulse k vs2) := by
    intro l1
    induction l1 with
    | nil =>
      intro l2 h
      cases l2 with
      | nil => rfl
      | cons b r2 => simp at h
    | cons a r ih =>
      intro l2 h
      cases l2 with
      | nil => simp at h
      | cons b r2 =>
        simp only [List.map_cons, List.cons.injEq] at h ⊢
        exact ⟨repulse_proj_eq k vs1 vs2 hvs a b h.1, ih r2 h.2⟩
  exact key vs1 vs2 hvs

/-- C9: the result of `step` — positions and returned `maxMove` alike — is
identical for two input arrays that agree on every `id`, `x` and `y` but
carry arbitrary incoming `dx`/`dy` values: the accumulators are zeroed
before use, so scratch state cannot leak between steps. -/
theorem c9_step_ignores_incoming_accumulators (vs1 vs2 : List Vertex)
    (es : List Edge) (width height k temperature : ℝ)
    (hproj : vs1.map proj = vs2.map proj) :
    fruchtermanReingoldStep vs1 es width height k temperature =
      fruchtermanReingoldStep vs2 es width height k temperature := by
  unfold fruchtermanReingoldStep
  rw [repulsionPhase_proj_eq k vs1 vs2 hproj]

/-- Witness for C9: one-vertex arrays differing only in scratch fields. -/
theorem c9_step_ignores_incoming_accumulators_witness :
    fruchtermanReingoldStep [{ id := 0, x := 1, y := 2, dx := 5, dy := 7 }]
        [] 800 600 50 100 =
      fruchtermanReingoldStep [{ id := 0, x := 1, y := 2, dx := 3, dy := 4 }]
        [] 800 600 50 100 :=
  c9_step_ignores_incoming_accumulators
    [{ id := 0, x := 1, y := 2, dx := 5, dy := 7 }]
    [{ id := 0, x := 1, y := 2, dx := 3, dy := 4 }] [] 800 600 50 100 rfl

/-! ## In-bounds endpoint lookups -/

/-- An in-bounds attraction iteration succeeds and preserves the array
length. -/
lemma attractEdge_some (k : ℝ) (vs : List Vertex) (e : Edge)
    (hs : e.source < vs.length) (ht : e.target < vs.length) :
    ∃ vs2, attractEdge k vs e = some vs2 ∧ vs2.length = vs.length := by
  obtain ⟨v, hv⟩ := nthV_isSome vs e.source hs
  obtain ⟨u, hu⟩ := nthV_isSome vs e.target ht
  rcases hres : attractEdge k vs e with _ | vs2
  · exfalso
    unfold attractEdge at hres
    rw [hv, hu] at hres
    simp at hres
  · refine ⟨vs2, rfl, ?_⟩
    unfold attractEdge at hres
    rw [hv, hu] at hres
    simp only [Option.some.injEq] at hres
    subst hres
    rw [modifyIdx_length, modifyIdx_length]

/-- The attraction phase succeeds whenever every edge is in bounds, and it
preserves the array length. -/
lemma attractionPhase_some (k : ℝ) :
    ∀ (es : List Edge) (vs : List Vertex),
      (∀ e ∈ es, e.source < vs.length ∧ e.target < vs.length) →
      ∃ out, attractionPhase k vs es = some out ∧ out.length = vs.length := by
  intro es
  induction es with
  | nil => intro vs _; exact ⟨vs, rfl, rfl⟩
  | cons e rest ih =>
    intro vs h
    obtain ⟨hs, ht⟩ := h e (List.mem_cons_self e rest)
    obtain ⟨vs1, h1, hlen1⟩ := attractEdge_some k vs e hs ht
    obtain ⟨out, h2, hlen2⟩ := ih vs1
      (fun e2 he2 => by rw [hlen1]; exact h e2 (List.mem_cons_of_mem _ he2))
    refine ⟨out, ?_, by rw [hlen2, hlen1]⟩
    unfold attractionPhase
    rw [h1]
    exact h2

/-- C10: when the vertex array satisfies `vertices[i].id = i` and every
edge endpoint lies in `[0, |V|)` — as generated graphs do — every endpoint
lookup of the attraction phase is in bounds (the whole step succeeds) and
retrieves the vertex whose id matches the endpoint. -/
theorem c10_endpoint_lookups_in_bounds (vs : List Vertex) (es : List Edge)
    (width height k temperature : ℝ)
    (hid : ∀ i, i < vs.length → (getDV vs i).id = i)
    (hes : ∀ e ∈ es, e.source < vs.length ∧ e.target < vs.length) :
    (∃ out, fruchtermanReingoldStep vs es width height k temperature = some out) ∧
    ∀ e ∈ es, (getDV vs e.source).id = e.source ∧
      (getDV vs e.target).id = e.target := by
  constructor
  · have hlen : (repulsionPhase k vs).length = vs.length := by
      unfold repulsionPhase
      rw [List.length_map]
    obtain ⟨vsMid, h2, _⟩ := attractionPhase_some k es (repulsionPhase k vs)
      (fun e he => by rw [hlen]; exact hes e he)
    refine ⟨movePhase width height temperature vsMid 0, ?_⟩
    simp only [fruchtermanReingoldStep]
    rw [h2]
  · intro e he
    obtain ⟨hs, ht⟩ := hes e he
    exact ⟨hid e.source hs, hid e.target ht⟩

/-- Witness for C10 on the concrete scenario graph. -/
theorem c10_endpoint_lookups_in_bounds_witness :
    (∃ out, fruchtermanReingoldStep scenarioTwoVertices scenarioEdge
        800 600 50 100 = some out) ∧
    ∀ e ∈ scenarioEdge, (getDV scenarioTwoVertices e.source).id = e.source ∧
      (getDV scenarioTwoVertices e.target).id = e.target :=
  c10_endpoint_lookups_in_bounds scenarioTwoVertices scenarioEdge 800 600 50 100
    (by
      intro i hi
      simp only [scenarioTwoVertices, List.length_cons, List.length_nil] at hi
      interval_cases i <;> rfl)
    (by
      intro e he
      simp only [scenarioEdge, List.mem_singleton] at he
      subst he
      exact ⟨by simp [scenarioTwoVertices], by simp [scenarioTwoVertices]⟩)

/-! ## Concrete-scenario evaluation -/

lemma sqrt_ten_thousand : Real.sqrt 10000 = 100 := by
  rw [show (10000:ℝ) = 100 * 100 by norm_num]
  exact Real.sqrt_mul_self (by norm_num)

/-- Repulsion phase on the scenario: each vertex is pushed away from the
other with magnitude `scenarioRep ≈ 24.995`. -/
lemma scenario_repulsion : repulsionPhase 50 scenarioTwoVertices =
    [{ id := 0, x := 0, y := 0, dx := -scenarioRep, dy := 0 },
     { id := 1, x := 100, y := 0, dx := scenarioRep, dy := 0 }] := by
  unfold repulsionPhase repulse scenarioTwoVertices
  simp only [List.map, List.foldl]
  norm_num
  rw [sqrt_ten_thousand]
  unfold scenarioRep
  norm_num

/-- Attraction phase on the scenario: the spring force `200.02` flips each
net accumulator toward the other vertex, magnitude `scenarioNet ≈ 175.025`. -/
lemma scenario_attraction : attractionPhase 50
    [{ id := 0, x := 0, y := 0, dx := -scenarioRep, dy := 0 },
     { id := 1, x := 100, y := 0, dx := scenarioRep, dy := 0 }] scenarioEdge =
    some [{ id := 0, x := 0, y := 0, dx := scenarioNet, dy := 0 },
          { id := 1, x := 100, y := 0, dx := -scenarioNet, dy := 0 }] := by
  simp only [attractionPhase, attractEdge, scenarioEdge, nthV, modifyIdx]
  norm_num
  rw [sqrt_ten_thousand]
  unfold scenarioRep scenarioNet
  norm_num

/-- Move phase on the scenario at `T = 100`: both accumulators exceed the
temperature, so each vertex moves exactly 100 — the vertices swap places —
and the returned `maxMove` is the uncapped magnitude `scenarioNet`. -/
lemma scenario_move : movePhase 800 600 100
    [{ id := 0, x := 0, y := 0, dx := scenarioNet, dy := 0 },
     { id := 1, x := 100, y := 0, dx := -scenarioNet, dy := 0 }] 0 =
    ([{ id := 0, x := 100, y := 0, dx := scenarioNet, dy := 0 },
      { id := 1, x := 0, y := 0, dx := -scenarioNet, dy := 0 }], scenarioNet) := by
  have hA0 : (0:ℝ) ≤ scenarioNet := by
    unfold scenarioNet
    norm_num
  have hA : Real.sqrt (scenarioNet * scenarioNet + 0 * 0) = scenarioNet := by
    rw [mul_zero, add_zero]
    exact Real.sqrt_mul_self hA0
  have hA2 : Real.sqrt (-scenarioNet * -scenarioNet + 0 * 0) = scenarioNet := by
    rw [neg_mul_neg, mul_zero, add_zero]
    exact Real.sqrt_mul_self hA0
  simp only [movePhase, capDisp, dispOf]
  rw [hA, hA2]
  norm_num [scenarioNet, min_def, max_def]

/-- One full step on the spec's concrete scenario. -/
lemma scenario_step_eval :
    fruchtermanReingoldStep scenarioTwoVertices scenarioEdge 800 600 50 100 =
    some ([{ id := 0, x := 100, y := 0, dx := scenarioNet, dy := 0 },
           { id := 1, x := 0, y := 0, dx := -scenarioNet, dy := 0 }], scenarioNet) := by
  unfold fruchtermanReingoldStep
  simp only [scenario_repulsion, scenario_attraction, scenario_move]

/-- The separation of the scenario vertices after one step is exactly 100:
each vertex is capped to a move of exactly `T = 100` along the axis, so the
two vertices pass through each other and end up swapped. -/
lemma scenario_sep_eq : c4sep = 100 := by
  unfold c4sep c4run
  rw [scenario_step_eval]
  simp only [Option.getD, getDV, nthV, dispOf]
  norm_num
  rw [sqrt_ten_thousand]

/-- C4 counterexample: the claim that after one step the separation is
strictly less than 100 is false on the spec scenario — the separation is
exactly 100 (the vertices swap), not less. -/
theorem c4_separation_not_below_hundred : ¬ c4sep < 100 := by
  rw [scenario_sep_eq]
  exact lt_irrefl 100

/-- C4 (amended): on the spec scenario the separation after one step equals
100 exactly (each vertex moves exactly the temperature cap `T = 100` along
the axis, overshooting past the other), and the displacement applied to
each vertex has magnitude at most 100. -/
theorem c4_scenario_step_displacements :
    c4sep = 100 ∧
    dispOf ((getDV c4run.1 0).x - (getDV scenarioTwoVertices 0).x)
      ((getDV c4run.1 0).y - (getDV scenarioTwoVertices 0).y) ≤ 100 ∧
    dispOf ((getDV c4run.1 1).x - (getDV scenarioTwoVertices 1).x)
      ((getDV c4run.1 1).y - (getDV scenarioTwoVertices 1).y) ≤ 100 := by
  refine ⟨scenario_sep_eq, ?_, ?_⟩ <;>
  · unfold c4run
    rw [scenario_step_eval]
    unfold scenarioTwoVertices
    simp only [Option.getD, getDV, nthV, dispOf]
    norm_num
    rw [sqrt_ten_thousand]

/-! ## The returned maxMove is the pre-cap maximum -/

/-- Folding the running maximum of `dispOf` magnitudes depends only on the
`dx`/`dy` fields of the list. -/
lemma foldl_maxdisp_of_map_eq :
    ∀ (l1 l2 : List Vertex),
      l1.map (fun v => (v.dx, v.dy)) = l2.map (fun v => (v.dx, v.dy)) →
      ∀ acc : ℝ,
        l1.foldl (fun a v => max a (dispOf v.dx v.dy)) acc =
          l2.foldl (fun a v => max a (dispOf v.dx v.dy)) acc := by
  intro l1
  induction l1 with
  | nil =>
    intro l2 h acc
    cases l2 with
    | nil => rfl
    | cons b r2 => simp at h
  | cons a r ih =>
    intro l2 h acc
    cases l2 with
    | nil => simp at h
    | cons b r2 =>
      simp only [List.map_cons, List.cons.injEq, Prod.mk.injEq] at h
      obtain ⟨⟨hdx, hdy⟩, h2⟩ := h
      simp only [List.foldl_cons]
      rw [hdx, hdy]
      exact ih r2 h2 _

/-- Move phase of the repulsion-only scenario at the small temperature
`T = 10`: both displacements are capped to 10, yet `maxMove` records the
uncapped magnitude `scenarioRep ≈ 24.995`. -/
lemma scenario_move_smallT : movePhase 800 600 10
    [{ id := 0, x := 0, y := 0, dx := -scenarioRep, dy := 0 },
     { id := 1, x := 100, y := 0, dx := scenarioRep, dy := 0 }] 0 =
    ([{ id := 0, x := 0, y := 0, dx := -scenarioRep, dy := 0 },
      { id := 1, x := 110, y := 0, dx := scenarioRep, dy := 0 }], scenarioRep) := by
  have hR0 : (0:ℝ) ≤ scenarioRep := by
    unfold scenarioRep
    norm_num
  have hR : Real.sqrt (scenarioRep * scenarioRep + 0 * 0) = scenarioRep := by
    rw [mul_zero, add_zero]
    exact Real.sqrt_mul_self hR0
  have hR2 : Real.sqrt (-scenarioRep * -scenarioRep + 0 * 0) = scenarioRep := by
    rw [neg_mul_neg, mul_zero, add_zero]
    exact Real.sqrt_mul_self hR0
  simp only [movePhase, capDisp, dispOf]
  rw [hR, hR2]
  norm_num [scenarioRep, min_def, max_def]

/-- One step on the scenario vertices with no edges and `T = 10`. -/
lemma scenario_step_smallT_eval :
    fruchtermanReingoldStep scenarioTwoVertices [] 800 600 50 10 =
    some ([{ id := 0, x := 0, y := 0, dx := -scenarioRep, dy := 0 },
           { id := 1, x := 110, y := 0, dx := scenarioRep, dy := 0 }], scenarioRep) := by
  unfold fruchtermanReingoldStep
  simp only [scenario_repulsion, attractionPhase, scenario_move_smallT]

/-- C6 counterexample: the returned `maxMove` exceeds the temperature on a
non-empty graph (two vertices, no edges, `T = 10`): the code records the
magnitude before the temperature cap, not after it. -/
theorem c6_returned_move_exceeds_temperature : 10 < c6run.2 := by
  unfold c6run
  rw [scenario_step_smallT_eval]
  simp only [Option.getD]
  unfold scenarioRep
  norm_num

/-- C6 (amended): `step` returns the maximum over all vertices of the
magnitude of the accumulated force vector before the temperature cap —
equivalently, of `dispOf v.dx v.dy` over the returned vertices, whose
scratch fields keep the uncapped accumulators — a value that can exceed the
temperature. -/
theorem c6_returns_max_precap_displacement (vs : List Vertex)
    (es : List Edge) (width height k temperature : ℝ)
    (vs2 : List Vertex) (m : ℝ)
    (hstep : fruchtermanReingoldStep vs es width height k temperature = some (vs2, m)) :
    m = vs2.foldl (fun acc v => max acc (dispOf v.dx v.dy)) 0 := by
  simp only [fruchtermanReingoldStep] at hstep
  rcases hatt : attractionPhase k (repulsionPhase k vs) es with _ | vsMid
  · rw [hatt] at hstep
    exact absurd hstep (by simp)
  · rw [hatt] at hstep
    simp only [Option.some.injEq] at hstep
    have hm : m = (movePhase width height temperature vsMid 0).2 := by rw [hstep]
    have hv : vs2 = (movePhase width height temperature vsMid 0).1 := by rw [hstep]
    rw [hm, hv, movePhase_snd]
    exact (foldl_maxdisp_of_map_eq (movePhase width height temperature vsMid 0).1
      vsMid (movePhase_fst_dxdy width height temperature vsMid 0) 0).symm

/-- Witness for the amended C6 on the empty graph. -/
theorem c6_returns_max_precap_displacement_witness :
    (0:ℝ) = ([] : List Vertex).foldl (fun acc v => max acc (dispOf v.dx v.dy)) 0 :=
  c6_returns_max_precap_displacement [] [] 800 600 50 100 [] 0 rfl

end GraphVisualizer
